import Mathlib

/-!
Verification of the agent orchestration core of the Monan SDK
(`src/agent.ts`, `src/router.ts` in `src/types.ts`, `src/workflow.ts` in
`src/messages/HumanMessage.ts`, `src/tools.ts`).

The TypeScript code is shallowly embedded: messages, chat responses and JSON
values become inductive data; the inference backends, the JSON parser
(`JSON.parse`), the redaction function (`maskPII`) and tool executors are
external collaborators and are taken as function parameters; the in-place
mutation that `prepareContext` performs on the caller-owned first message is
made explicit by returning, next to the result, the caller-visible state of
the input list after the call.
-/

namespace Monan

/-- Message roles, `src/types.ts` (`'system' | 'user' | 'assistant' | 'tool'`). -/
inductive Role where
  | system
  | user
  | assistant
  | tool
deriving DecidableEq, Repr

/-- `Message` from `src/types.ts`: `{role, content}`. -/
structure Message where
  role : Role
  content : String
deriving DecidableEq, Repr

/-- `ChatResponse` from `src/types.ts`: `{content, usage?: {tokens}}`.
`usage` is `none` when the backend reported no token count. -/
structure ChatResponse where
  content : String
  usage : Option Nat
deriving DecidableEq, Repr

/-- JSON values as produced by `JSON.parse` and consumed by the engine.
A missing object field (JS `undefined`) is modelled as `null`, which is
equivalent for every use the engine makes of it (truthiness tests and
string interpolation). -/
inductive JsonVal where
  | null
  | bool (b : Bool)
  | num (n : Int)
  | str (s : String)
  | arr (elems : List JsonVal)
  | obj (fields : List (String × JsonVal))

/-- JS truthiness of a value (`if (x)`): `null`/`false`/`0`/`""` are falsy,
every array or object is truthy. -/
def jsTruthy : JsonVal → Bool
  | .null => false
  | .bool b => b
  | .num n => n != 0
  | .str s => s != ""
  | .arr _ => true
  | .obj _ => true

/-- Property access `v.k` on a parsed JSON value: field lookup on objects,
`undefined` (modelled `null`) otherwise. -/
def jsonField (v : JsonVal) (k : String) : JsonVal :=
  match v with
  | .obj fields =>
      match fields.find? (fun kv => kv.1 == k) with
      | some kv => kv.2
      | none => .null
  | _ => .null

/-- JS strict equality `v === s` against a string `s`: true only for the
equal string value. Used for `t.name === toolName`. -/
def jsonIsStr (v : JsonVal) (s : String) : Bool :=
  match v with
  | .str t => t == s
  | _ => false

/-- JS string coercion (template interpolation `${v}` / `String(v)`). -/
def jsToString : JsonVal → String
  | .null => "null"
  | .bool b => if b then "true" else "false"
  | .num n => toString n
  | .str s => s
  | .arr elems => String.intercalate "," (elems.attach.map (fun e => jsToString e.1))
  | .obj _ => "[object Object]"
decreasing_by
  have := List.sizeOf_lt_of_mem e.2
  simp_all
  omega

/-- Escape one character for a JSON string literal (the cases `JSON.stringify`
escapes that occur in this engine's strings). -/
def escapeJsonChar (c : Char) : String :=
  if c = '"' then "\\\""
  else if c = '\\' then "\\\\"
  else if c = '\n' then "\\n"
  else if c = '\r' then "\\r"
  else if c = '\t' then "\\t"
  else String.singleton c

/-- Escape a string for a JSON string literal. -/
def escapeJson (s : String) : String :=
  String.join (s.data.map escapeJsonChar)

/-- `JSON.stringify` on a parsed JSON value. -/
def stringifyJson : JsonVal → String
  | .null => "null"
  | .bool b => if b then "true" else "false"
  | .num n => toString n
  | .str s => "\"" ++ escapeJson s ++ "\""
  | .arr elems =>
      "[" ++ String.intercalate "," (elems.attach.map (fun e => stringifyJson e.1)) ++ "]"
  | .obj fields =>
      "\x7b" ++ String.intercalate ","
        (fields.attach.map (fun kv => "\"" ++ escapeJson kv.1.1 ++ "\":" ++ stringifyJson kv.1.2))
        ++ "\x7d"
decreasing_by
  · have := List.sizeOf_lt_of_mem e.2
    simp_all
    omega
  · obtain ⟨⟨k, v⟩, hmem⟩ := kv
    have := List.sizeOf_lt_of_mem hmem
    simp_all
    omega

/-- The whitespace characters of JS `\s` / `trim` that can occur in this
engine's strings (ASCII part of the JS definition). -/
def isJsWs (c : Char) : Bool :=
  c = ' ' || c = '\t' || c = '\n' || c = '\r' || c = '\x0b' || c = '\x0c'

/-- JS `String.prototype.trim` (ASCII whitespace). -/
def jsTrim (s : String) : String :=
  String.mk (((s.data.dropWhile isJsWs).reverse.dropWhile isJsWs).reverse)

/-- JS regex `\w`: `[A-Za-z0-9_]`. -/
def isWordChar (c : Char) : Bool :=
  c.isAlphanum || c = '_'

/-- JS `a.includes(b)` on strings (substring containment). -/
def containsSubstr (s pat : String) : Bool :=
  decide (pat.data <:+: s.data)

/-! ### Tool-call parsing — `Agent.parseToolCall`, `src/agent.ts`

`parseToolCall` runs two regexes in order.  Both are simple enough that
backtracking never changes the outcome, so each is embedded as a
first-match scan over the character list:

* over a word run (`\w+`) no backtracking helps, because shortening the run
  leaves a word character where the following literal (`</tool>` or `"`)
  expects a non-word character;
* over a whitespace run (`\s*`) no backtracking helps, because the literal
  expected after it never starts with a whitespace character;
* the lazy `(.*?)` / `[\s\S]*?` parts take the first position at which the
  continuation matches, which is exactly a first-occurrence scan. -/

/-- First match of `/<tool>(\w+)<\/tool>/` tried at the head of `s` only:
the literal `<tool>`, a non-empty maximal word run, then `</tool>`. -/
def tryToolTagAt (s : List Char) : Option (List Char) :=
  if "<tool>".data.isPrefixOf s then
    let r := s.drop 6
    let nm := r.takeWhile isWordChar
    if nm.isEmpty then none
    else if "</tool>".data.isPrefixOf (r.dropWhile isWordChar) then some nm
    else none
  else none

/-- `content.match(/<tool>(\w+)<\/tool>/)`: capture of the leftmost match. -/
def findToolTag : List Char → Option (List Char)
  | [] => none
  | c :: rest =>
      match tryToolTagAt (c :: rest) with
      | some nm => some nm
      | none => findToolTag rest

/-- Split `s` at the first occurrence of `delim`, returning the part before
it; `none` when `delim` does not occur. -/
def splitUntil (delim : List Char) : List Char → Option (List Char)
  | [] => if delim.isPrefixOf ([] : List Char) then some [] else none
  | c :: rest =>
      if delim.isPrefixOf (c :: rest) then some []
      else
        match splitUntil delim rest with
        | some cap => some (c :: cap)
        | none => none

/-- One position of `/<input>(.*?)<\/input>/s`: the literal `<input>`, then
the shortest text up to a following `</input>`. -/
def tryInputTagAt (s : List Char) : Option (List Char) :=
  if "<input>".data.isPrefixOf s then splitUntil "</input>".data (s.drop 7)
  else none

/-- `content.match(/<input>(.*?)<\/input>/s)`: capture of the leftmost match. -/
def findInputTag : List Char → Option (List Char)
  | [] => none
  | c :: rest =>
      match tryInputTagAt (c :: rest) with
      | some cap => some cap
      | none => findInputTag rest

/-- One position of `"tool":\s*"(\w+)"` inside a fenced block: the literal
`"tool":`, optional whitespace, then a quoted non-empty word.  Returns the
word and the remainder after its closing quote. -/
def tryToolKeyAt (s : List Char) : Option (List Char × List Char) :=
  if "\"tool\":".data.isPrefixOf s then
    let r1 := (s.drop 7).dropWhile isJsWs
    if r1.head? = some '"' then
      let r2 := r1.tail
      let nm := r2.takeWhile isWordChar
      if nm.isEmpty then none
      else
        let r3 := r2.dropWhile isWordChar
        if r3.head? = some '"' then some (nm, r3.tail) else none
    else none
  else none

/-- Leftmost occurrence of `"tool":\s*"(\w+)"`. -/
def scanToolKey : List Char → Option (List Char × List Char)
  | [] => none
  | c :: rest =>
      match tryToolKeyAt (c :: rest) with
      | some p => some p
      | none => scanToolKey rest

/-- One position of `\}\s*\x60\x60\x60`: a closing brace, optional
whitespace, then the closing fence. -/
def tryCloseAt (s : List Char) : Bool :=
  match s with
  | c :: r => c = '\x7d' && "```".data.isPrefixOf (r.dropWhile isJsWs)
  | [] => false

/-- Whether `\}\s*\x60\x60\x60` occurs anywhere in `s`.  If it occurs after
one `"tool"` key occurrence it also occurs after every earlier one, so
plain occurrence is equivalent to the regex engine's backtracking search. -/
def scanClose : List Char → Bool
  | [] => false
  | c :: rest => tryCloseAt (c :: rest) || scanClose rest

/-- One position of the whole fenced pattern
`\x60\x60\x60json\s*\{[\s\S]*?"tool":\s*"(\w+)"[\s\S]*?\}\s*\x60\x60\x60`. -/
def tryFencedAt (s : List Char) : Bool :=
  if "```json".data.isPrefixOf s then
    let r1 := (s.drop 7).dropWhile isJsWs
    if r1.head? = some '\x7b' then
      match scanToolKey r1.tail with
      | some p => scanClose p.2
      | none => false
    else false
  else false

/-- `content.match(/\x60\x60\x60json\s*\{...\}\s*\x60\x60\x60/) !== null`
(the `codeBlockMatch` test in `parseToolCall`). -/
def hasFencedToolBlock : List Char → Bool
  | [] => false
  | c :: rest => tryFencedAt (c :: rest) || hasFencedToolBlock rest

/-- Remainder after the first occurrence of the opening fence `\x60\x60\x60json`. -/
def findFenceJson : List Char → Option (List Char)
  | [] => none
  | c :: rest =>
      if "```json".data.isPrefixOf (c :: rest) then some ((c :: rest).drop 7)
      else findFenceJson rest

/-- Shortest prefix of `s` after which `\s*\x60\x60\x60` matches; `none`
when no closing fence follows. -/
def scanWsClose : List Char → Option (List Char)
  | [] => none
  | c :: rest =>
      if "```".data.isPrefixOf ((c :: rest).dropWhile isJsWs) then some []
      else
        match scanWsClose rest with
        | some cap => some (c :: cap)
        | none => none

/-- Capture of `content.match(/\x60\x60\x60json\s*([\s\S]*?)\s*\x60\x60\x60/)`
(the `jsonMatch` in `parseToolCall`). -/
def fencedJsonCapture (s : List Char) : Option (List Char) :=
  match findFenceJson s with
  | some r => scanWsClose (r.dropWhile isJsWs)
  | none => none

/-- A parsed tool invocation `{name, input}`.  In the fenced branch the code
reads `parsed.tool` without checking it is a string, so `name` is a JSON
value; the tagged branch always yields a string name. -/
structure ToolCall where
  name : JsonVal
  input : JsonVal

/-- `Agent.parseToolCall` (`src/agent.ts`).  `jp` is the external
`JSON.parse`, returning `none` when it throws.  Pattern 1 (tagged form) is
checked first; malformed JSON in the tagged input position degrades to
`\x7braw: <literal text>\x7d`; an empty tagged input capture is falsy in JS and
leaves the input `\x7b\x7d`.  In the fenced branch a `JSON.parse` failure is
caught and the function returns `none`. -/
def parseToolCall (jp : String → Option JsonVal) (content : String) : Option ToolCall :=
  let cs := content.data
  match findToolTag cs with
  | some nm =>
      let input : JsonVal :=
        match findInputTag cs with
        | some cap =>
            if cap.isEmpty then .obj []
            else
              match jp (String.mk cap) with
              | some v => v
              | none => .obj [("raw", .str (String.mk cap))]
        | none => .obj []
      some ⟨.str (String.mk nm), input⟩
  | none =>
      if hasFencedToolBlock cs then
        match fencedJsonCapture cs with
        | some cap =>
            match jp (String.mk cap) with
            | some parsed =>
                some ⟨jsonField parsed "tool",
                      if jsTruthy (jsonField parsed "input") then jsonField parsed "input"
                      else .obj []⟩
            | none => none
        | none => none
      else none

/-! ### Tools — `src/tools.ts` and `Agent.executeToolWithRetry` -/

/-- Outcome of one invocation of a tool executor (external user code):
either a value or a thrown error with its message. -/
inductive ExecResult where
  | val (v : JsonVal)
  | thrown (msg : String)

/-- `callTool` (`src/tools.ts`) composed with the `JSON.parse` the engine
immediately applies to its string result: a thrown executor error is caught
and becomes `\x7berror: message\x7d`; a returned value round-trips through
`JSON.stringify`/`JSON.parse` unchanged.  Consequently this composition
never throws, and the `catch` branch of `executeToolWithRetry` is dead. -/
def callToolParsed : ExecResult → JsonVal
  | .val v => v
  | .thrown msg => .obj [("error", .str msg)]

/-- A registered tool (`ToolMetadata`, `src/tools.ts`).  `schemaDesc` is the
rendered `getSchemaDescription(inputSchema)` (the Zod schema lives in the
external validation library).  `exec` is the external executor's behaviour,
indexed by the observation-cycle number and the attempt number within the
cycle so that stateful executors (like the test suite's `flakyTool`) are
expressible. -/
structure ToolM where
  name : String
  description : String
  schemaDesc : String
  exec : Nat → Nat → JsonVal → ExecResult

/-- `ReActObservation` (`src/types.ts`): `{toolName, result, error?}`. -/
structure Obs where
  toolName : JsonVal
  result : JsonVal
  error : Option String

/-- `Agent.executeToolWithRetry` (`src/agent.ts`).  Returns the observation
and the final `retryCount` exactly as the code does, plus — as a ghost
instrumentation field used only by the theorems — the number of executor
invocations performed.  The error strings the code constructs are always
non-empty, so `error.isSome` coincides with JS truthiness of
`observation.error`. -/
def executeToolWithRetry (maxRetries : Nat) (tools : List ToolM) (cycle : Nat)
    (toolName : JsonVal) (input : JsonVal) (retryCount : Nat) : Obs × Nat × Nat :=
  match tools.find? (fun t => jsonIsStr toolName t.name) with
  | none =>
      ({ toolName := toolName, result := .null,
         error := some ("Tool \x27" ++ jsToString toolName ++ "\x27 not found. Available tools: "
                        ++ String.intercalate ", " (tools.map (fun t => t.name))) },
       retryCount, 0)
  | some t =>
      let parsed := callToolParsed (t.exec cycle retryCount input)
      if jsTruthy (jsonField parsed "error") then
        if _h : retryCount < maxRetries then
          let r := executeToolWithRetry maxRetries tools cycle toolName input (retryCount + 1)
          (r.1, r.2.1, r.2.2 + 1)
        else
          ({ toolName := toolName, result := parsed,
             error := some ("Tool failed after " ++ toString maxRetries ++ " retries: "
                            ++ jsToString (jsonField parsed "error")) },
           retryCount, 1)
      else
        ({ toolName := toolName, result := parsed, error := none }, retryCount, 1)
termination_by maxRetries - retryCount

/-! ### Agent context assembly — `Agent.prepareContext` -/

/-- The immutable fields of an `Agent` that `prepareContext` reads.  `mask`
is the external `maskPII`; `knowledge` is the vector store's `search`,
fixed (deterministic) for the scenarios the claims quantify over. -/
structure AgentCtx where
  name : String
  description : String
  systemPrompt : Option String := none
  useMaskPII : Bool := false
  mask : String → String := id
  knowledge : Option (String → List String) := none

/-- The effective system prompt: explicit `systemPrompt`, else synthesized
from the agent name and description. -/
def effectiveSystemPrompt (ag : AgentCtx) : String :=
  match ag.systemPrompt with
  | some sp => sp
  | none => "You are " ++ ag.name ++ ". " ++ ag.description

/-- PII masking and RAG wrapping applied to the most recent user message's
content in `prepareContext`. -/
def ragTransform (ag : AgentCtx) (content : String) : String :=
  let c1 := if ag.useMaskPII then ag.mask content else content
  match ag.knowledge with
  | some search =>
      let docs := search c1
      if docs.isEmpty then c1
      else "CONTEXT:\n" ++ String.intercalate "\n" docs ++ "\n\nQUESTION:\n" ++ c1
  | none => c1

/-- `messages.findLastIndex(m => m.role === 'user')`: index of the last
user-role message, preferring a match in the tail over the head. -/
def findLastUserIdx : List Message → Option Nat
  | [] => none
  | m :: rest =>
      match findLastUserIdx rest with
      | some i => some (i + 1)
      | none => if m.role == Role.user then some 0 else none

/-- The user-message processing half of `prepareContext` (PII masking and
RAG wrapping): replaces the last user message with a freshly built object —
invisible to the caller of `prepareContext`. -/
def prepareStep1 (ag : AgentCtx) (msgs : List Message) : List Message :=
  match findLastUserIdx msgs with
  | some i =>
      match msgs[i]? with
      | some m => msgs.set i { m with content := ragTransform ag m.content }
      | none => msgs
  | none => msgs

/-- `Agent.prepareContext` (`src/agent.ts`).  First component: the returned
message list.  Second component: the caller-visible state of the input list
after the call.  The code copies the array (`[...messages]`) and builds a
new object for the transformed user message, but when the first message has
role `system` it writes the combined prompt into that caller-owned object
in place (`contextMessages[0]!.content = ...`); since the user-message
index can never be 0 in that branch, the mutated object is exactly the
caller's first message, which is what the second component records. -/
def prepareContext (ag : AgentCtx) (msgs : List Message) : List Message × List Message :=
  let step1 := prepareStep1 ag msgs
  let sp := effectiveSystemPrompt ag
  match step1 with
  | [] => ([⟨.system, sp⟩], msgs)
  | m0 :: rest =>
      if m0.role = .system then
        let m0' : Message := { m0 with content := sp ++ "\n" ++ m0.content }
        (m0' :: rest, msgs.set 0 m0')
      else
        (⟨.system, sp⟩ :: m0 :: rest, msgs)

/-! ### The ReAct loop — `Agent.invokeWithReAct` -/

/-- `Agent.buildToolsContext` (`src/agent.ts`). -/
def buildToolsContext (tools : List ToolM) : String :=
  if tools.isEmpty then ""
  else
    let toolDescriptions := String.intercalate "\n\n" (tools.map (fun tool =>
      "- **" ++ tool.name ++ "**: " ++ tool.description ++ "\n  Input: " ++ tool.schemaDesc))
    "You have access to the following tools. When you need to use a tool, format it as:\n<tool>toolName</tool>\n<input>\x7b\"param1\": \"value1\", \"param2\": \"value2\"\x7d</input>\n\nAvailable Tools:\n"
      ++ toolDescriptions
      ++ "\n\nRemember to use tools when needed, observe the results, and reason about next steps."

/-- `JSON.stringify(observation.observation)` for the tool-result message:
keys in insertion order, the `error` key omitted when absent. -/
def stringifyObs (o : Obs) : String :=
  "\x7b\"toolName\":" ++ stringifyJson o.toolName ++ ",\"result\":" ++ stringifyJson o.result
    ++ (match o.error with
        | some e => ",\"error\":\"" ++ escapeJson e ++ "\""
        | none => "")
    ++ "\x7d"

/-- Result of `invokeWithReAct`: the returned `ChatResponse`, the number of
loop iterations executed (observation cycles), the total number of tool
executor invocations (ghost instrumentation), and the final conversation. -/
structure ReActResult where
  response : ChatResponse
  cycles : Nat
  toolExecs : Nat
  msgs : List Message

/-- The `while (continueLoop && iterations < maxIterations)` loop of
`Agent.invokeWithReAct`, with `maxIterations = 10` hard-coded as in the
source.  `backend` is the external inference call
(`callOpenRouter`/`callOllamaWithRetry`), indexed by the number of backend
calls already made. -/
def reactLoop (maxRetries : Nat) (tools : List ToolM) (backend : Nat → ChatResponse)
    (jp : String → Option JsonVal) (msgs : List Message) (iterations : Nat) (execs : Nat)
    (agentResponse : ChatResponse) : ReActResult :=
  if _h : iterations < 10 then
    let resp := backend iterations
    let it := iterations + 1
    match parseToolCall jp resp.content with
    | none => ⟨resp, it, execs, msgs⟩
    | some tc =>
        let r := executeToolWithRetry maxRetries tools iterations tc.name tc.input 0
        let msgs1 := msgs ++ [⟨.assistant, resp.content⟩,
          ⟨.user, "Tool Result for " ++ jsToString tc.name ++ ":\n" ++ stringifyObs r.1⟩]
        match r.1.error with
        | some e =>
            if r.2.1 < maxRetries then
              reactLoop maxRetries tools backend jp
                (msgs1 ++ [⟨.system, "The tool call failed: " ++ e
                  ++ ". Please try again or use a different approach. Retries remaining: "
                  ++ toString (maxRetries - r.2.1)⟩])
                it (execs + r.2.2) resp
            else ⟨resp, it, execs + r.2.2, msgs1⟩
        | none => reactLoop maxRetries tools backend jp msgs1 it (execs + r.2.2) resp
  else ⟨agentResponse, iterations, execs, msgs⟩
termination_by 10 - iterations

/-- `Agent.invokeWithReAct` (`src/agent.ts`): prepend the tools context to
the system message (or synthesize one from the first message's content as
the code does), then run the bounded loop starting from
`agentResponse = \x7bcontent: '', usage: \x7btokens: 0\x7d\x7d`. -/
def invokeWithReAct (maxRetries : Nat) (tools : List ToolM) (backend : Nat → ChatResponse)
    (jp : String → Option JsonVal) (messages : List Message) : ReActResult :=
  let toolsContext := buildToolsContext tools
  let reActMessages :=
    match messages with
    | m0 :: rest =>
        if m0.role = .system then
          ({ m0 with content := m0.content ++ "\n\n" ++ toolsContext } : Message) :: rest
        else
          (⟨.system, m0.content ++ "\n\n" ++ toolsContext⟩ : Message) :: m0 :: rest
    | [] => [⟨.system, "" ++ "\n\n" ++ toolsContext⟩]
  reactLoop maxRetries tools backend jp reActMessages 0 0 ⟨"", some 0⟩

/-! ### Local backend recovery — `Agent.callOllamaWithRetry` -/

/-- `handleModelMissingError`'s test: the error message contains
`not found` or `try pulling`. -/
def isMissingModelError (msg : String) : Bool :=
  containsSubstr msg "not found" || containsSubstr msg "try pulling"

/-- External behaviour of the local runtime during one `invoke`: the
outcome of the first chat call, of a `pull` should one be issued, and of a
second chat call should one be issued. -/
structure OllamaBehavior where
  firstCall : Except String ChatResponse
  pullResult : Except String Unit
  secondCall : Except String ChatResponse

/-- `Agent.callOllamaWithRetry` with `handleModelMissingError` inlined
(`src/agent.ts`).  Returns the overall outcome plus the number of chat
calls and of pull requests issued (ghost instrumentation).  A failing pull
throws `Failed to download model ...` out of the recovery path; a
non-missing-model error is rethrown unchanged. -/
def callOllamaWithRetry (model : String) (b : OllamaBehavior) :
    Except String ChatResponse × Nat × Nat :=
  match b.firstCall with
  | .ok r => (.ok r, 1, 0)
  | .error e =>
      if isMissingModelError e then
        match b.pullResult with
        | .ok _ => (b.secondCall, 2, 1)
        | .error pe =>
            (.error ("Failed to download model \x27" ++ model ++ "\x27: " ++ pe), 1, 1)
      else (.error e, 1, 0)

/-! ### Router — `src/router.ts` (shipped inside `src/types.ts`) -/

/-- A `Route`: `{intent, description, agent}`.  The target agent is kept
abstract (`α`), since `route` only selects and returns it. -/
structure RouteM (α : Type) where
  intent : String
  description : String
  agent : α

/-- The `Router` fields `route` reads: the ordered route list and the
default agent. -/
structure RouterM (α : Type) where
  routes : List (RouteM α)
  dflt : α

/-- `this.validIntents = this.routes.map(route => route.intent)`. -/
def validIntents {α} (r : RouterM α) : List String :=
  r.routes.map (fun rt => rt.intent)

/-- `Router.route`.  The whole body runs inside `try/catch`, so the result
of the classification call is modelled as `Except`: `.error` covers the
classification agent (or anything else inside the `try`) throwing.  The
Zod `refine` validation is membership of the trimmed label in
`validIntents`; on validation failure or any error the default agent is
returned (with a console warning, not modelled), never an exception. -/
def routerRoute {α} (r : RouterM α) (classification : Except String String) : α :=
  match classification with
  | .error _ => r.dflt
  | .ok content =>
      let selectedIntent := jsTrim content
      if (validIntents r).contains selectedIntent then
        match r.routes.find? (fun rt => rt.intent == selectedIntent) with
        | some rt => rt.agent
        | none => r.dflt
      else r.dflt

/-- The system instruction `route` appends for the classification call. -/
def routerInstruction {α} (r : RouterM α) : String :=
  let routesList := String.intercalate "\n"
    (r.routes.map (fun rt => "- " ++ rt.intent ++ ": " ++ rt.description))
  let validIntentsStr := String.intercalate ", " (validIntents r)
  "You are a router that decides which agent should handle a request based on the user\x27s intent.\n\nAvailable routes and their intents:\n"
    ++ routesList
    ++ "\n\nYou MUST respond with ONLY one of these exact intent names: " ++ validIntentsStr
    ++ "\nRespond with nothing else, no explanation, no punctuation. Just the intent name."

/-- The internal classification agent the `Router` constructor builds:
`new Agent(\x7bname: 'InternalRouter', description: 'Routes requests to
appropriate agents', ...\x7d)` — no explicit system prompt, no tools, no
knowledge base. -/
def routerAgentCtx (mask : String → String) (useMaskPII : Bool) : AgentCtx :=
  { name := "InternalRouter", description := "Routes requests to appropriate agents",
    systemPrompt := none, useMaskPII := useMaskPII, mask := mask, knowledge := none }

/-- The message history `Router.invoke`/`Router.stream` hands to the
selected agent.  `route` builds `routerPrompt = [...messages, routeSys]`, a
fresh array that shares its first `messages.length` element objects with
the caller's array; the classification call then runs the internal agent's
`prepareContext` over it, whose only caller-visible effect is the in-place
head mutation.  The delivered history is the caller's array as of the
delegation, i.e. the first `messages.length` entries of that
caller-visible state. -/
def routerDelivered {α} (r : RouterM α) (mask : String → String) (useMaskPII : Bool)
    (messages : List Message) : List Message :=
  let routerPrompt := messages ++ [⟨.system, routerInstruction r⟩]
  ((prepareContext (routerAgentCtx mask useMaskPII) routerPrompt).2).take messages.length

/-! ### Workflow — `src/workflow.ts` (shipped inside `src/messages/HumanMessage.ts`) -/

/-- Result of `Workflow.invoke`: `\x7bcontent, usage, processMessages?\x7d`. -/
structure WorkflowResult where
  content : String
  usage : Option Nat
  processMessages : Option (List ChatResponse)

/-- The stage loop of `Workflow.invoke`.  A stage (`Agent | Router`) is
abstracted as its `invoke` behaviour: from the current conversation it
produces a `ChatResponse` *and* the caller-visible state of that
conversation after the call — the workflow's `currentMessages` array
shares its message objects with the stage, and an Agent stage's
`prepareContext` rewrites a leading system message in place
(`contextMessages[0]!.content = ...`), so a stage's effect on the shared
list must be part of its behaviour (a stage that mutates nothing returns
its input unchanged).  Returns the final conversation, the conversation
passed to each stage in turn — its value at the moment of the call — as
ghost instrumentation, and every stage's response.  After each stage
`new AIMessage(response.content)` — an assistant-role message — is pushed
onto the (possibly mutated) conversation. -/
def wfRun (stages : List (List Message → ChatResponse × List Message)) (cur : List Message) :
    List Message × List (List Message) × List ChatResponse :=
  match stages with
  | [] => (cur, [], [])
  | s :: rest =>
      let r0 := s cur
      let r := wfRun rest (r0.2 ++ [⟨.assistant, r0.1.content⟩])
      (r.1, cur :: r.2.1, r0.1 :: r.2.2)

/-- `Workflow.invoke` (`src/workflow.ts`): run the stages over a copy of
the caller's list, return the last message's content (`|| ''` when there is
none), a token usage of `\x7btokens: 0\x7d`, and — when `streamEvents` — every
stage's response. -/
def wfInvoke (stages : List (List Message → ChatResponse × List Message))
    (messages : List Message) (streamEvents : Bool) : WorkflowResult :=
  let r := wfRun stages messages
  { content :=
      match r.1.getLast? with
      | some m => m.content
      | none => ""
    usage := some 0
    processMessages := if streamEvents then some r.2.2 else none }

/-- Conversation passed to each stage (first `stages.length` entries of the
ghost trace). -/
def wfTrace (stages : List (List Message → ChatResponse × List Message))
    (messages : List Message) : List (List Message) :=
  (wfRun stages messages).2.1

/-- The stage responses collected by `Workflow.invoke`. -/
def wfResponses (stages : List (List Message → ChatResponse × List Message))
    (messages : List Message) : List ChatResponse :=
  (wfRun stages messages).2.2

/-- A tool-less Agent as a Workflow stage: `Agent.invoke` runs
`prepareContext` on the shared conversation and makes one backend call on
the prepared messages; the caller-visible state afterwards is
`prepareContext`'s second component (the in-place head write-back). -/
def agentStage (ag : AgentCtx) (backend : List Message → ChatResponse) :
    List Message → ChatResponse × List Message :=
  fun msgs => (backend (prepareContext ag msgs).1, (prepareContext ag msgs).2)

/-- Concrete agent behind the Workflow counterexample stages. -/
def wfCexAgent : AgentCtx := { name := "A1", description := "d1" }

/-! ### Workflow lemmas and claims C5, C10 -/

theorem wfRun_trace_length (stages : List (List Message → ChatResponse × List Message)) :
    ∀ cur, ((wfRun stages cur).2.1).length = stages.length := by
  induction stages with
  | nil => intro cur; simp [wfRun]
  | cons s rest ih => intro cur; simp [wfRun, ih]

theorem wfRun_responses_length (stages : List (List Message → ChatResponse × List Message)) :
    ∀ cur, ((wfRun stages cur).2.2).length = stages.length := by
  induction stages with
  | nil => intro cur; simp [wfRun]
  | cons s rest ih => intro cur; simp [wfRun, ih]

theorem wfTrace_length (stages : List (List Message → ChatResponse × List Message))
    (messages : List Message) : (wfTrace stages messages).length = stages.length :=
  wfRun_trace_length stages messages

theorem head_ne_system_append_assistant (cur : List Message) (x : String)
    (hcur : ∀ m0, cur.head? = some m0 → m0.role ≠ Role.system) :
    ∀ m0, (cur ++ [(⟨.assistant, x⟩ : Message)]).head? = some m0 → m0.role ≠ Role.system := by
  intro m0 hm
  cases cur with
  | nil =>
      simp only [List.nil_append, List.head?_cons, Option.some.injEq] at hm
      rw [← hm]
      simp
  | cons c t =>
      simp only [List.cons_append, List.head?_cons, Option.some.injEq] at hm
      exact hcur m0 (by rw [List.head?_cons, hm])

theorem wfRun_fst_of_preserving (stages : List (List Message → ChatResponse × List Message)) :
    ∀ cur,
      (∀ s ∈ stages, ∀ msgs : List Message,
        (∀ m0, msgs.head? = some m0 → m0.role ≠ Role.system) → (s msgs).2 = msgs) →
      (∀ m0, cur.head? = some m0 → m0.role ≠ Role.system) →
      (wfRun stages cur).1 =
        cur ++ ((wfRun stages cur).2.2).map (fun r => (⟨.assistant, r.content⟩ : Message)) := by
  induction stages with
  | nil => intro cur _ _; simp [wfRun]
  | cons s rest ih =>
      intro cur heff hcur
      have hs : (s cur).2 = cur := heff s (by simp) cur hcur
      simp only [wfRun, hs, List.map_cons]
      rw [ih (cur ++ [(⟨.assistant, (s cur).1.content⟩ : Message)])
        (fun t ht => heff t (by simp [ht]))
        (head_ne_system_append_assistant cur _ hcur)]
      simp

theorem wfRun_trace_get_of_preserving
    (stages : List (List Message → ChatResponse × List Message)) :
    ∀ cur,
      (∀ s ∈ stages, ∀ msgs : List Message,
        (∀ m0, msgs.head? = some m0 → m0.role ≠ Role.system) → (s msgs).2 = msgs) →
      (∀ m0, cur.head? = some m0 → m0.role ≠ Role.system) →
      ∀ k (hk : k < stages.length),
      ((wfRun stages cur).2.1).get ⟨k, by rw [wfRun_trace_length]; exact hk⟩ =
        cur ++ (((wfRun stages cur).2.2).take k).map
          (fun r => (⟨.assistant, r.content⟩ : Message)) := by
  induction stages with
  | nil => intro cur _ _ k hk; exact absurd hk (by simp)
  | cons s rest ih =>
      intro cur heff hcur k hk
      have hs : (s cur).2 = cur := heff s (by simp) cur hcur
      have hcur1 : ∀ m0, ((s cur).2 ++ [(⟨.assistant, (s cur).1.content⟩ : Message)]).head? =
          some m0 → m0.role ≠ Role.system := by
        rw [hs]
        exact head_ne_system_append_assistant cur _ hcur
      match k with
      | 0 => simp [wfRun]
      | k + 1 =>
          have hk' : k < rest.length := by simpa using hk
          simp only [wfRun, List.get_cons_succ, List.take_succ_cons, List.map_cons]
          rw [ih _ (fun t ht => heff t (by simp [ht])) hcur1 k hk']
          rw [hs]
          simp

theorem wfResponses_ne_nil (stages : List (List Message → ChatResponse × List Message))
    (messages : List Message) (h : stages ≠ []) : wfResponses stages messages ≠ [] := by
  intro hc
  apply h
  have := wfRun_responses_length stages messages
  rw [wfResponses] at hc
  rw [hc] at this
  exact List.length_eq_zero.mp this.symm

theorem wfRun_responses_get_of_preserving
    (stages : List (List Message → ChatResponse × List Message)) :
    ∀ cur,
      (∀ s ∈ stages, ∀ msgs : List Message,
        (∀ m0, msgs.head? = some m0 → m0.role ≠ Role.system) → (s msgs).2 = msgs) →
      (∀ m0, cur.head? = some m0 → m0.role ≠ Role.system) →
      ∀ k (hk : k < stages.length),
      ((wfRun stages cur).2.2).get ⟨k, by rw [wfRun_responses_length]; exact hk⟩ =
        ((stages.get ⟨k, hk⟩)
          (((wfRun stages cur).2.1).get ⟨k, by rw [wfRun_trace_length]; exact hk⟩)).1 := by
  induction stages with
  | nil => intro cur _ _ k hk; exact absurd hk (by simp)
  | cons s rest ih =>
      intro cur heff hcur k hk
      have hs : (s cur).2 = cur := heff s (by simp) cur hcur
      have hcur1 : ∀ m0, ((s cur).2 ++ [(⟨.assistant, (s cur).1.content⟩ : Message)]).head? =
          some m0 → m0.role ≠ Role.system := by
        rw [hs]
        exact head_ne_system_append_assistant cur _ hcur
      match k with
      | 0 => simp [wfRun]
      | k + 1 =>
          have hk' : k < rest.length := by simpa using hk
          simp only [wfRun, List.get_cons_succ]
          exact ih _ (fun t ht => heff t (by simp [ht])) hcur1 k hk'

/-- Claim C5 (amended): `Workflow.invoke` runs its stages strictly in
insertion order, and — provided the stages leave a history that does not
start with a system-role message unchanged (true of Agent stages, whose
only caller-visible effect is `prepareContext`'s in-place rewrite of a
leading system message, see `agentStage_preserves_no_system`) and the
input history does not start with a system-role message — the conversation
passed to stage `k` (0-based here) is the original input messages followed
by the responses of stages `0..k-1`, each appended as an assistant-role
message; the response recorded for stage `k` is stage `k` applied to
exactly that conversation; and the returned content is the last stage's
response content.  Without these conditions the claim fails: each
preceding Agent stage rewrites the shared leading system message in place,
so later stages see the rewritten head rather than the original messages
(see the counterexample). -/
theorem wfInvoke_stage_order_and_content
    (stages : List (List Message → ChatResponse × List Message))
    (messages : List Message) (streamEvents : Bool)
    (heff : ∀ s ∈ stages, ∀ msgs : List Message,
      (∀ m0, msgs.head? = some m0 → m0.role ≠ Role.system) → (s msgs).2 = msgs)
    (hhead : ∀ m0, messages.head? = some m0 → m0.role ≠ Role.system) :
    (∀ k (hk : k < stages.length),
        (wfTrace stages messages).get ⟨k, by rw [wfTrace_length]; exact hk⟩ =
          messages ++ ((wfResponses stages messages).take k).map
            (fun r => (⟨.assistant, r.content⟩ : Message)))
    ∧ (∀ k (hk : k < stages.length),
        (wfResponses stages messages).get
            ⟨k, by rw [wfResponses, wfRun_responses_length]; exact hk⟩ =
          ((stages.get ⟨k, hk⟩)
            ((wfTrace stages messages).get ⟨k, by rw [wfTrace_length]; exact hk⟩)).1)
    ∧ (stages ≠ [] →
        (wfInvoke stages messages streamEvents).content =
          (((wfResponses stages messages).getLast?.map ChatResponse.content).getD "")) := by
  refine ⟨fun k hk => wfRun_trace_get_of_preserving stages messages heff hhead k hk,
          fun k hk => wfRun_responses_get_of_preserving stages messages heff hhead k hk,
          fun h => ?_⟩
  have hne : (wfRun stages messages).2.2 ≠ [] := by
    have := wfResponses_ne_nil stages messages h
    simpa [wfResponses] using this
  have hmapne : (((wfRun stages messages).2.2).map
      (fun r => (⟨.assistant, r.content⟩ : Message))) ≠ [] := by
    simpa using hne
  simp only [wfInvoke, wfResponses, wfRun_fst_of_preserving stages messages heff hhead]
  rw [List.getLast?_append_of_ne_nil _ hmapne, List.getLast?_map,
      List.getLast?_eq_getLast _ hne]
  simp

/-- Counterexample to claim C5 as stated: in a two-stage workflow of Agent
stages over a history starting with a system message, the conversation
passed to stage 2 is not the original input messages followed by stage 1's
response — stage 1's `prepareContext` has rewritten the shared leading
system message in place (the same effect proved for claims C8/C9). -/
theorem wfInvoke_stage_conversation_cex :
    (wfTrace [agentStage wfCexAgent (fun _ => ⟨"r1", some 1⟩),
              agentStage wfCexAgent (fun _ => ⟨"r2", some 2⟩)]
        [⟨.system, "S"⟩]).get ⟨1, by rw [wfTrace_length]; decide⟩ ≠
      [(⟨.system, "S"⟩ : Message)] ++
        ((wfResponses [agentStage wfCexAgent (fun _ => ⟨"r1", some 1⟩),
                       agentStage wfCexAgent (fun _ => ⟨"r2", some 2⟩)]
            [⟨.system, "S"⟩]).take 1).map
          (fun r => (⟨.assistant, r.content⟩ : Message)) := by
  decide

/-- Claim C10: for every input, `Workflow.invoke` returns a token usage of
exactly 0 — the per-stage usages are never aggregated into the returned
`usage` field. -/
theorem wfInvoke_usage_always_zero (stages : List (List Message → ChatResponse × List Message))
    (messages : List Message) (streamEvents : Bool) :
    (wfInvoke stages messages streamEvents).usage = some 0 := rfl

/-! ### Router claims C4 -/

/-- Claim C4: `Router.route` never throws — it is a total function of the
classification outcome.  If the classification call itself fails, or the
trimmed classification output is not among the valid intent labels, the
configured default agent is returned; if the trimmed output equals a
route's intent label, that (first matching) route's target agent is
returned. -/
theorem routerRoute_fallback_and_selection {α : Type} (r : RouterM α) :
    (∀ e : String, routerRoute r (.error e) = r.dflt)
    ∧ (∀ content : String, jsTrim content ∉ validIntents r →
        routerRoute r (.ok content) = r.dflt)
    ∧ (∀ (content : String) (rt : RouteM α),
        r.routes.find? (fun x => x.intent == jsTrim content) = some rt →
        routerRoute r (.ok content) = rt.agent) := by
  refine ⟨fun e => rfl, fun content hnm => ?_, fun content rt hfind => ?_⟩
  · simp only [routerRoute]
    rw [if_neg]
    simp only [List.contains, List.elem_eq_mem, decide_eq_true_eq]
    exact hnm
  · have hmem : rt ∈ r.routes := List.mem_of_find?_eq_some hfind
    have hpred := List.find?_some hfind
    have hint : rt.intent = jsTrim content := by simpa using hpred
    have hcontains : (validIntents r).contains (jsTrim content) = true := by
      simp only [List.contains, List.elem_eq_mem, decide_eq_true_eq, validIntents, List.mem_map]
      exact ⟨rt, hmem, hint⟩
    simp only [routerRoute]
    rw [if_pos hcontains, hfind]

/-- Concrete router used to witness the Router claims: `coding → 10`,
`chat → 20`, default agent `30`. -/
def cexRouter : RouterM Nat :=
  { routes := [⟨"coding", "handles code", 10⟩, ⟨"chat", "general chat", 20⟩], dflt := 30 }

theorem routerRoute_fallback_and_selection_witness :
    routerRoute cexRouter (.error "boom") = 30
    ∧ routerRoute cexRouter (.ok "unknown_intent") = 30
    ∧ routerRoute cexRouter (.ok " coding ") = 10 :=
  ⟨(routerRoute_fallback_and_selection cexRouter).1 "boom",
   (routerRoute_fallback_and_selection cexRouter).2.1 "unknown_intent" (by decide),
   (routerRoute_fallback_and_selection cexRouter).2.2 " coding " ⟨"coding", "handles code", 10⟩ rfl⟩

/-! ### Local-backend recovery claim C6 -/

/-- Claim C6: for a local-backend call, a "model not found" failure
triggers exactly one pull request and exactly one retry of the original
call (whose outcome, success or failure, is returned as is); any other
backend failure is propagated unchanged with no pull and no retry. -/
theorem callOllamaWithRetry_recovery (model : String) (b : OllamaBehavior) (e : String) :
    (b.firstCall = .error e → isMissingModelError e = true → b.pullResult = .ok () →
      callOllamaWithRetry model b = (b.secondCall, 2, 1))
    ∧ (b.firstCall = .error e → isMissingModelError e = false →
      callOllamaWithRetry model b = (.error e, 1, 0)) := by
  constructor
  · intro h1 h2 h3
    simp [callOllamaWithRetry, h1, h2, h3]
  · intro h1 h2
    simp [callOllamaWithRetry, h1, h2]

/-- Concrete local-backend behaviour used to witness claim C6: the first
call reports a missing model, the pull succeeds, the retry succeeds. -/
def cexOllamaMissing : OllamaBehavior :=
  { firstCall := .error "model \x27llama2\x27 not found, try pulling it first",
    pullResult := .ok (),
    secondCall := .ok ⟨"hi", some 5⟩ }

/-- Concrete local-backend behaviour whose first failure is not a
missing-model error. -/
def cexOllamaOther : OllamaBehavior :=
  { firstCall := .error "connection refused",
    pullResult := .ok (),
    secondCall := .ok ⟨"hi", some 5⟩ }

theorem callOllamaWithRetry_recovery_witness :
    callOllamaWithRetry "llama2" cexOllamaMissing = (.ok ⟨"hi", some 5⟩, 2, 1)
    ∧ callOllamaWithRetry "llama2" cexOllamaOther = (.error "connection refused", 1, 0) :=
  ⟨(callOllamaWithRetry_recovery "llama2" cexOllamaMissing
      "model \x27llama2\x27 not found, try pulling it first").1 rfl (by decide) rfl,
   (callOllamaWithRetry_recovery "llama2" cexOllamaOther "connection refused").2 rfl (by decide)⟩

/-! ### Context-assembly lemmas and claims C7, C8, C9 -/

theorem findLastUserIdx_spec (msgs : List Message) :
    ∀ i, findLastUserIdx msgs = some i → ∃ m, msgs[i]? = some m ∧ m.role = .user := by
  induction msgs with
  | nil => intro i h; simp [findLastUserIdx] at h
  | cons m rest ih =>
      intro i h
      simp only [findLastUserIdx] at h
      cases hr : findLastUserIdx rest with
      | some j =>
          rw [hr] at h
          obtain ⟨m', hm', hrole⟩ := ih j hr
          cases h
          exact ⟨m', by simpa using hm', hrole⟩
      | none =>
          rw [hr] at h
          by_cases hu : m.role = Role.user
          · simp [hu] at h
            cases h
            exact ⟨m, by simp, hu⟩
          · simp [hu] at h

theorem prepareStep1_head_of_system (ag : AgentCtx) (m0 : Message) (rest : List Message)
    (h : m0.role = .system) : ∃ tail, prepareStep1 ag (m0 :: rest) = m0 :: tail := by
  cases hidx : findLastUserIdx (m0 :: rest) with
  | none => exact ⟨rest, by simp [prepareStep1, hidx]⟩
  | some i =>
      obtain ⟨m, hm, hrole⟩ := findLastUserIdx_spec _ i hidx
      match i with
      | 0 =>
          have he : m0 = m := by simpa using hm
          rw [← he] at hrole
          rw [hrole] at h
          exact absurd h (by simp)
      | j + 1 =>
          refine ⟨rest.set j { m with content := ragTransform ag m.content }, ?_⟩
          simp only [prepareStep1, hidx]
          rw [show ((m0 :: rest)[j + 1]? : Option Message) = rest[j]? from by simp]
          rw [show (rest[j]? : Option Message) = some m from by simpa using hm]
          rfl

theorem prepareStep1_head_role (ag : AgentCtx) (msgs : List Message) :
    (prepareStep1 ag msgs).head?.map Message.role = msgs.head?.map Message.role := by
  cases hidx : findLastUserIdx msgs with
  | none => simp [prepareStep1, hidx]
  | some i =>
      cases hm : msgs[i]? with
      | none => simp [prepareStep1, hidx, hm]
      | some m =>
          simp only [prepareStep1, hidx, hm]
          cases msgs with
          | nil => simp
          | cons m0 rest =>
              match i with
              | 0 =>
                  have he : m0 = m := by simpa using hm
                  subst he
                  rfl
              | j + 1 => rfl

theorem prepareContext_snd_of_head_system (ag : AgentCtx) (m0 : Message)
    (rest : List Message) (h : m0.role = .system) :
    (prepareContext ag (m0 :: rest)).2 =
      ({ m0 with content := effectiveSystemPrompt ag ++ "\n" ++ m0.content } : Message) :: rest := by
  obtain ⟨tail, hstep⟩ := prepareStep1_head_of_system ag m0 rest h
  simp only [prepareContext, hstep]
  rw [if_pos h]
  simp

theorem prepareContext_snd_of_head_not_system (ag : AgentCtx) (msgs : List Message)
    (h : ∀ m0, msgs.head? = some m0 → m0.role ≠ .system) :
    (prepareContext ag msgs).2 = msgs := by
  have hrole := prepareStep1_head_role ag msgs
  cases hstep : prepareStep1 ag msgs with
  | nil => simp [prepareContext, hstep]
  | cons m0' tail =>
      rw [hstep] at hrole
      cases hmsg : msgs.head? with
      | none => rw [hmsg] at hrole; simp at hrole
      | some m00 =>
          rw [hmsg] at hrole
          simp only [List.head?_cons, Option.map_some] at hrole
          have hne : ¬ (m0'.role = Role.system) := by
            intro hcon
            exact h m00 hmsg (by
              have : m0'.role = m00.role := by injection hrole
              rw [← this]; exact hcon)
          simp only [prepareContext, hstep]
          rw [if_neg hne]

/-- Claim C7 (amended): `prepareContext` is deterministic and caller-state
preserving — hence repeatable with identical output — provided the history
does not start with a system-role message.  (When it does, the in-place
write-back of claim C8 changes the caller's first message, and a second
call compounds the system prompt.) -/
theorem prepareContext_idempotent_unless_leading_system (ag : AgentCtx) (msgs : List Message)
    (h : ∀ m0, msgs.head? = some m0 → m0.role ≠ .system) :
    (prepareContext ag msgs).2 = msgs
    ∧ (prepareContext ag ((prepareContext ag msgs).2)).1 = (prepareContext ag msgs).1 := by
  have h2 := prepareContext_snd_of_head_not_system ag msgs h
  exact ⟨h2, by rw [h2]⟩

/-- Concrete agent used by the context-assembly counterexamples. -/
def cexAgent : AgentCtx := { name := "A", description := "B" }

theorem prepareContext_idempotent_unless_leading_system_witness :
    (prepareContext cexAgent [⟨.user, "hi"⟩]).2 = [⟨.user, "hi"⟩]
    ∧ (prepareContext cexAgent ((prepareContext cexAgent [⟨.user, "hi"⟩]).2)).1 =
        (prepareContext cexAgent [⟨.user, "hi"⟩]).1 :=
  prepareContext_idempotent_unless_leading_system cexAgent [⟨.user, "hi"⟩] (by
    intro m0 hm hc
    cases hm
    cases hc)

/-- Counterexample to claim C7 as stated: on a history whose first message
has role `system`, two successive `prepareContext` calls on the same
caller-owned input give different outputs, because the first call rewrote
the caller's system message in place. -/
theorem prepareContext_not_idempotent_cex :
    (prepareContext cexAgent ((prepareContext cexAgent [⟨.system, "S"⟩]).2)).1 ≠
      (prepareContext cexAgent [⟨.system, "S"⟩]).1 := by
  decide

/-- Claim C8: when the history's first message has role `system`,
`prepareContext` writes the effective system prompt, a newline and the
previous content back into that caller-owned message object; the caller's
list itself gains no element — after the call the caller sees exactly the
original list with its first message's content so replaced.
(`Agent.invoke` and `Agent.stream` pass the caller's array to
`prepareContext` directly, so the write-back is visible to their caller.) -/
theorem prepareContext_leading_system_write_back (ag : AgentCtx) (m0 : Message)
    (rest : List Message) (h : m0.role = .system) :
    (prepareContext ag (m0 :: rest)).2 =
      ({ m0 with content := effectiveSystemPrompt ag ++ "\n" ++ m0.content } : Message) :: rest :=
  prepareContext_snd_of_head_system ag m0 rest h

theorem prepareContext_leading_system_write_back_witness :
    (prepareContext cexAgent [⟨.system, "S"⟩, ⟨.user, "q"⟩]).2 =
      [⟨.system, effectiveSystemPrompt cexAgent ++ "\n" ++ "S"⟩, ⟨.user, "q"⟩] :=
  prepareContext_leading_system_write_back cexAgent ⟨.system, "S"⟩ [⟨.user, "q"⟩] rfl

/-- An Agent stage leaves a history that does not start with a system-role
message unchanged: its only caller-visible effect is `prepareContext`'s
in-place head write-back, which only fires on a leading system message. -/
theorem agentStage_preserves_no_system (ag : AgentCtx) (backend : List Message → ChatResponse) :
    ∀ msgs : List Message, (∀ m0, msgs.head? = some m0 → m0.role ≠ Role.system) →
      (agentStage ag backend msgs).2 = msgs :=
  fun msgs h => prepareContext_snd_of_head_not_system ag msgs h

/-- Concrete three-stage pipeline of Agent stages used to witness the
Workflow stage-order claim. -/
def wfWitnessStages : List (List Message → ChatResponse × List Message) :=
  [agentStage cexAgent (fun _ => ⟨"r1", some 1⟩),
   agentStage cexAgent (fun _ => ⟨"r2", some 2⟩),
   agentStage cexAgent (fun _ => ⟨"r3", some 3⟩)]

/-- Concrete input history used to witness the Workflow stage-order claim. -/
def wfWitnessMsgs : List Message := [⟨.user, "q"⟩]

theorem wfInvoke_stage_order_and_content_witness :
    ((wfTrace wfWitnessStages wfWitnessMsgs).get ⟨2, by rw [wfTrace_length]; decide⟩ =
        wfWitnessMsgs ++ ((wfResponses wfWitnessStages wfWitnessMsgs).take 2).map
          (fun r => (⟨.assistant, r.content⟩ : Message)))
    ∧ ((wfInvoke wfWitnessStages wfWitnessMsgs true).content =
        (((wfResponses wfWitnessStages wfWitnessMsgs).getLast?.map ChatResponse.content).getD "")) := by
  have heff : ∀ s ∈ wfWitnessStages, ∀ msgs : List Message,
      (∀ m0, msgs.head? = some m0 → m0.role ≠ Role.system) → (s msgs).2 = msgs := by
    intro s hs
    simp only [wfWitnessStages, List.mem_cons, List.not_mem_nil, or_false] at hs
    rcases hs with rfl | rfl | rfl <;> exact agentStage_preserves_no_system _ _
  have hhead : ∀ m0, wfWitnessMsgs.head? = some m0 → m0.role ≠ Role.system := by
    intro m0 hm
    simp only [wfWitnessMsgs, List.head?_cons, Option.some.injEq] at hm
    rw [← hm]
    decide
  have h := wfInvoke_stage_order_and_content wfWitnessStages wfWitnessMsgs true heff hhead
  exact ⟨h.1 2 (by decide), h.2.2 (by simp [wfWitnessStages])⟩

/-- Claim C9 (amended): the history `Router.invoke`/`Router.stream` hands
to the selected agent never contains the appended classification
instruction (it lives only in the separate `routerPrompt` array), and is
the caller's history unchanged — except that when the history starts with a
system-role message, the classification call's `prepareContext` has already
prepended the internal classification agent's own system prompt to that
message in place, and the selected agent receives the mutated history. -/
theorem routerDelivered_characterization {α : Type} (r : RouterM α) (mask : String → String)
    (useMaskPII : Bool) (messages : List Message) :
    routerDelivered r mask useMaskPII messages =
      match messages with
      | [] => []
      | m0 :: rest =>
          if m0.role = .system then
            ({ m0 with content :=
                "You are InternalRouter. Routes requests to appropriate agents\n" ++ m0.content }
              : Message) :: rest
          else m0 :: rest := by
  match messages with
  | [] => simp [routerDelivered]
  | m0 :: rest =>
      show routerDelivered r mask useMaskPII (m0 :: rest) =
        if m0.role = Role.system then
          ({ m0 with content :=
              "You are InternalRouter. Routes requests to appropriate agents\n" ++ m0.content }
            : Message) :: rest
        else m0 :: rest
      by_cases h : m0.role = Role.system
      · rw [if_pos h]
        have hcons : (m0 :: rest) ++ [(⟨.system, routerInstruction r⟩ : Message)] =
            m0 :: (rest ++ [(⟨.system, routerInstruction r⟩ : Message)]) := by simp
        simp only [routerDelivered, hcons]
        rw [prepareContext_snd_of_head_system _ m0 _ h]
        have hsp : effectiveSystemPrompt (routerAgentCtx mask useMaskPII) ++ "\n" ++ m0.content =
            "You are InternalRouter. Routes requests to appropriate agents\n" ++ m0.content := by
          rfl
        rw [hsp]
        rw [show (m0 :: rest).length = (({ m0 with content :=
            "You are InternalRouter. Routes requests to appropriate agents\n" ++ m0.content }
            : Message) :: rest).length from by simp]
        exact List.take_left _ _
      · rw [if_neg h]
        simp only [routerDelivered]
        rw [prepareContext_snd_of_head_not_system]
        · exact List.take_left _ _
        · intro mh hmh
          have : mh = m0 := by
            simp only [List.cons_append, List.head?_cons] at hmh
            exact (Option.some.injEq _ _ ▸ hmh).symm
          rw [this]
          exact h

/-- Counterexample to claim C9 as stated: with a history starting with a
system message, `route`'s classification call mutates the caller's first
message, so the history delivered to the selected agent differs from the
caller's original. -/
theorem routerDelivered_mutates_leading_system_cex :
    routerDelivered cexRouter id false [⟨.system, "S"⟩] ≠ [⟨.system, "S"⟩] := by
  decide

/-! ### Tool-retry lemmas and claim C2 -/

theorem exec_retry_persistent_aux (mr : Nat) (tools : List ToolM) (cycle : Nat)
    (nm inp : JsonVal) (t : ToolM)
    (hfind : tools.find? (fun tl => jsonIsStr nm tl.name) = some t)
    (hfail : ∀ a, a ≤ mr →
      jsTruthy (jsonField (callToolParsed (t.exec cycle a inp)) "error") = true) :
    ∀ d rc, rc + d = mr →
      executeToolWithRetry mr tools cycle nm inp rc =
        ({ toolName := nm, result := callToolParsed (t.exec cycle mr inp),
           error := some ("Tool failed after " ++ toString mr ++ " retries: "
             ++ jsToString (jsonField (callToolParsed (t.exec cycle mr inp)) "error")) },
         mr, d + 1) := by
  intro d
  induction d with
  | zero =>
      intro rc hrc
      have hrc' : rc = mr := by omega
      subst hrc'
      rw [executeToolWithRetry]
      simp only [hfind]
      rw [if_pos (hfail rc le_rfl)]
      rw [dif_neg (by omega : ¬ rc < rc)]
  | succ d ih =>
      intro rc hrc
      have hlt : rc < mr := by omega
      rw [executeToolWithRetry]
      simp only [hfind]
      rw [if_pos (hfail rc (by omega))]
      rw [dif_pos hlt]
      rw [ih (rc + 1) (by omega)]

theorem exec_retry_success_aux (mr : Nat) (tools : List ToolM) (cycle : Nat)
    (nm inp : JsonVal) (t : ToolM) (k : Nat)
    (hfind : tools.find? (fun tl => jsonIsStr nm tl.name) = some t)
    (hk : k ≤ mr)
    (hfails : ∀ a, a < k →
      jsTruthy (jsonField (callToolParsed (t.exec cycle a inp)) "error") = true)
    (hsucc : jsTruthy (jsonField (callToolParsed (t.exec cycle k inp)) "error") = false) :
    ∀ d rc, rc + d = k →
      executeToolWithRetry mr tools cycle nm inp rc =
        ({ toolName := nm, result := callToolParsed (t.exec cycle k inp), error := none },
         k, d + 1) := by
  intro d
  induction d with
  | zero =>
      intro rc hrc
      have hrc' : rc = k := by omega
      subst hrc'
      rw [executeToolWithRetry]
      simp only [hfind]
      rw [if_neg (by rw [hsucc]; simp)]
  | succ d ih =>
      intro rc hrc
      have hlt : rc < mr := by omega
      rw [executeToolWithRetry]
      simp only [hfind]
      rw [if_pos (hfails rc (by omega))]
      rw [dif_pos hlt]
      rw [ih (rc + 1) (by omega)]

/-- Claim C2: inside one observation cycle, once a known tool's execution
yields a result carrying an error (or throws — `callTool` converts the
throw into an `error`-carrying result), the engine re-executes the very
same tool call with the very same input until an attempt succeeds or
`maxRetries` retries have been spent: on persistent failure the call is
executed `maxRetries + 1` times in total (the initial attempt plus
`maxRetries` retries) and the final attempt's error is recorded in the
returned observation; an attempt that succeeds ends the retrying at once. -/
theorem executeToolWithRetry_same_call_retries (mr : Nat) (tools : List ToolM) (cycle : Nat)
    (nm inp : JsonVal) (t : ToolM)
    (hfind : tools.find? (fun tl => jsonIsStr nm tl.name) = some t) :
    ((∀ a, a ≤ mr →
        jsTruthy (jsonField (callToolParsed (t.exec cycle a inp)) "error") = true) →
      executeToolWithRetry mr tools cycle nm inp 0 =
        ({ toolName := nm, result := callToolParsed (t.exec cycle mr inp),
           error := some ("Tool failed after " ++ toString mr ++ " retries: "
             ++ jsToString (jsonField (callToolParsed (t.exec cycle mr inp)) "error")) },
         mr, mr + 1))
    ∧ (∀ k, k ≤ mr →
        (∀ a, a < k →
          jsTruthy (jsonField (callToolParsed (t.exec cycle a inp)) "error") = true) →
        jsTruthy (jsonField (callToolParsed (t.exec cycle k inp)) "error") = false →
      executeToolWithRetry mr tools cycle nm inp 0 =
        ({ toolName := nm, result := callToolParsed (t.exec cycle k inp), error := none },
         k, k + 1)) := by
  constructor
  · intro hfail
    exact exec_retry_persistent_aux mr tools cycle nm inp t hfind hfail mr 0 (by omega)
  · intro k hk hfails hsucc
    exact exec_retry_success_aux mr tools cycle nm inp t k hfind hk hfails hsucc k 0 (by omega)

/-- A tool whose executor fails on every attempt, as in the failing-tool
scenarios of the spec's testable properties. -/
def flakyAlwaysTool : ToolM :=
  { name := "flaky", description := "always fails", schemaDesc := "value (number)",
    exec := fun _ _ _ => .val (.obj [("error", .str "boom")]) }

/-- The test suite's `flakyTool`: fails on the first two attempts, succeeds
on the third. -/
def flakyThirdTimeTool : ToolM :=
  { name := "flaky", description := "fails twice then succeeds", schemaDesc := "value (number)",
    exec := fun _ a _ =>
      if a < 2 then .val (.obj [("error", .str ("Attempt " ++ toString (a + 1) ++ " failed"))])
      else .val (.obj [("result", .num 16)]) }

theorem executeToolWithRetry_same_call_retries_witness :
    executeToolWithRetry 2 [flakyAlwaysTool] 0 (.str "flaky") (.obj []) 0 =
      ({ toolName := .str "flaky",
         result := callToolParsed (flakyAlwaysTool.exec 0 2 (.obj [])),
         error := some ("Tool failed after " ++ toString 2 ++ " retries: "
           ++ jsToString (jsonField (callToolParsed (flakyAlwaysTool.exec 0 2 (.obj []))) "error")) },
       2, 2 + 1)
    ∧ executeToolWithRetry 5 [flakyThirdTimeTool] 0 (.str "flaky") (.obj []) 0 =
      ({ toolName := .str "flaky",
         result := callToolParsed (flakyThirdTimeTool.exec 0 2 (.obj [])), error := none },
       2, 2 + 1) :=
  ⟨(executeToolWithRetry_same_call_retries 2 [flakyAlwaysTool] 0 (.str "flaky") (.obj [])
      flakyAlwaysTool rfl).1 (by decide),
   (executeToolWithRetry_same_call_retries 5 [flakyThirdTimeTool] 0 (.str "flaky") (.obj [])
      flakyThirdTimeTool rfl).2 2 (by decide) (by decide) (by decide)⟩

/-! ### The ReAct cycle bound — claim C1

The repository's own documentation (`src/messages/WORKFLOW.md`, the
`react-cycles-example.ts` example and the spec) states that `maxRetries`
bounds the number of think/act/observe *cycles*.  The code does something
else: the loop is capped by a hard-coded `maxIterations = 10`, and
`maxRetries` bounds the *tool-internal* retries of `executeToolWithRetry`
within a single cycle; a persistently failing known tool exhausts them in
cycle one, after which `retryCount < maxRetries` is false and the loop
breaks.  The theorem below proves the actual behaviour: exactly one cycle,
`maxRetries + 1` executor invocations, and the first response returned. -/

theorem invokeWithReAct_one_cycle_on_persistent_failure (mr : Nat) (tools : List ToolM)
    (backend : Nat → ChatResponse) (jp : String → Option JsonVal) (messages : List Message)
    (nm inp : JsonVal) (t : ToolM)
    (hparse : ∀ k, parseToolCall jp (backend k).content = some ⟨nm, inp⟩)
    (hfind : tools.find? (fun tl => jsonIsStr nm tl.name) = some t)
    (hfail : ∀ c a, a ≤ mr →
      jsTruthy (jsonField (callToolParsed (t.exec c a inp)) "error") = true) :
    (invokeWithReAct mr tools backend jp messages).cycles = 1
    ∧ (invokeWithReAct mr tools backend jp messages).toolExecs = mr + 1
    ∧ (invokeWithReAct mr tools backend jp messages).response = backend 0 := by
  have hexec := exec_retry_persistent_aux mr tools 0 nm inp t hfind (hfail 0) mr 0 (by omega)
  simp only [invokeWithReAct]
  rw [reactLoop]
  rw [dif_pos (by omega : (0 : Nat) < 10)]
  simp only [hparse 0, hexec]
  rw [if_neg (by omega : ¬ mr < mr)]
  exact ⟨rfl, by simp, rfl⟩

/-- Constant backend that requests the failing tool on every think step. -/
def cexBackend : Nat → ChatResponse :=
  fun _ => ⟨"<tool>flaky</tool><input>\x7b\x7d</input>", some 1⟩

/-- Stand-in for the external `JSON.parse`, defined on the inputs the
concrete scenarios exercise. -/
def jpStub : String → Option JsonVal :=
  fun s => if s = "\x7b\x7d" then some (.obj []) else none

theorem invokeWithReAct_one_cycle_on_persistent_failure_witness :
    (invokeWithReAct 3 [flakyAlwaysTool] cexBackend jpStub [⟨.user, "go"⟩]).cycles = 1
    ∧ (invokeWithReAct 3 [flakyAlwaysTool] cexBackend jpStub [⟨.user, "go"⟩]).toolExecs = 3 + 1
    ∧ (invokeWithReAct 3 [flakyAlwaysTool] cexBackend jpStub [⟨.user, "go"⟩]).response =
        cexBackend 0 :=
  invokeWithReAct_one_cycle_on_persistent_failure 3 [flakyAlwaysTool] cexBackend jpStub
    [⟨.user, "go"⟩] (.str "flaky") (.obj []) flakyAlwaysTool (fun _ => rfl) rfl
    (fun _ _ _ => rfl)

/-! ### Parser lemmas and claim C3 -/

theorem prefix_self_append (p s : List Char) : p.isPrefixOf (p ++ s) = true := by
  induction p with
  | nil => simp [List.isPrefixOf]
  | cons a t ih => simp [List.isPrefixOf, ih]

theorem isPrefixOf_cons_of_head_ne {d c : Char} (ds rest : List Char) (h : d ≠ c) :
    (d :: ds).isPrefixOf (c :: rest) = false := by
  simp only [List.isPrefixOf, Bool.and_eq_false_imp]
  intro hdc
  exact absurd (by simpa using hdc) h

theorem takeWhile_append_of_all {p : Char → Bool} (l : List Char) (c : Char) (s : List Char)
    (hl : ∀ x ∈ l, p x = true) (hc : p c = false) :
    (l ++ c :: s).takeWhile p = l := by
  induction l with
  | nil => simp [List.takeWhile_cons, hc]
  | cons a t ih =>
      have ha := hl a (by simp)
      have iht := ih (fun x hx => hl x (by simp [hx]))
      simp [List.takeWhile_cons, ha, iht]

theorem dropWhile_append_of_all {p : Char → Bool} (l : List Char) (c : Char) (s : List Char)
    (hl : ∀ x ∈ l, p x = true) (hc : p c = false) :
    (l ++ c :: s).dropWhile p = c :: s := by
  induction l with
  | nil => simp [List.dropWhile_cons, hc]
  | cons a t ih =>
      have ha := hl a (by simp)
      have iht := ih (fun x hx => hl x (by simp [hx]))
      simp [List.dropWhile_cons, ha, iht]

theorem isWordChar_ne_of (c : Char) (h : isWordChar c = true) : c ≠ '<' ∧ c ≠ '"' ∧ c ≠ '`' := by
  refine ⟨fun hc => ?_, fun hc => ?_, fun hc => ?_⟩ <;> subst hc <;> exact absurd h (by decide)

/-- The tagged tool-call form of the protocol, at the very start of the
response: `<tool>NAME</tool><input>INPUT</input>` followed by anything. -/
def taggedForm (name inp rest : List Char) : List Char :=
  "<tool>".data ++ name ++ "</tool>".data ++ "<input>".data ++ inp ++ "</input>".data ++ rest

theorem findToolTag_taggedForm (name inp rest : List Char) (hne : name ≠ [])
    (hword : ∀ c ∈ name, isWordChar c = true) :
    findToolTag (taggedForm name inp rest) = some name := by
  have hdata : "<tool>".data = ['<', 't', 'o', 'o', 'l', '>'] := rfl
  have hshape : taggedForm name inp rest =
      '<' :: 't' :: 'o' :: 'o' :: 'l' :: '>' ::
        (name ++ ('<' :: ('/' :: 't' :: 'o' :: 'o' :: 'l' :: '>' ::
          ("<input>".data ++ inp ++ "</input>".data ++ rest)))) := by
    simp [taggedForm]
  rw [hshape, findToolTag]
  have htry : tryToolTagAt ('<' :: 't' :: 'o' :: 'o' :: 'l' :: '>' ::
      (name ++ ('<' :: ('/' :: 't' :: 'o' :: 'o' :: 'l' :: '>' ::
        ("<input>".data ++ inp ++ "</input>".data ++ rest))))) = some name := by
    simp only [tryToolTagAt]
    rw [show ('<' :: 't' :: 'o' :: 'o' :: 'l' :: '>' ::
      (name ++ ('<' :: ('/' :: 't' :: 'o' :: 'o' :: 'l' :: '>' ::
        ("<input>".data ++ inp ++ "</input>".data ++ rest))))) =
      "<tool>".data ++ (name ++ ('<' :: ('/' :: 't' :: 'o' :: 'o' :: 'l' :: '>' ::
        ("<input>".data ++ inp ++ "</input>".data ++ rest)))) from by simp [hdata]]
    rw [prefix_self_append]
    simp only [if_true]
    rw [show (("<tool>".data ++ (name ++ ('<' :: ('/' :: 't' :: 'o' :: 'o' :: 'l' :: '>' ::
        ("<input>".data ++ inp ++ "</input>".data ++ rest))))).drop 6) =
      name ++ ('<' :: ('/' :: 't' :: 'o' :: 'o' :: 'l' :: '>' ::
        ("<input>".data ++ inp ++ "</input>".data ++ rest))) from by simp [hdata]]
    rw [takeWhile_append_of_all name '<' _ hword (by decide),
        dropWhile_append_of_all name '<' _ hword (by decide)]
    rw [show ('<' :: ('/' :: 't' :: 'o' :: 'o' :: 'l' :: '>' ::
        ("<input>".data ++ inp ++ "</input>".data ++ rest))) =
      "</tool>".data ++ ("<input>".data ++ inp ++ "</input>".data ++ rest) from by simp]
    rw [prefix_self_append]
    simp [hne]
  rw [htry]

theorem findInputTag_cons_of_ne (c : Char) (rest : List Char) (h : c ≠ '<') :
    findInputTag (c :: rest) = findInputTag rest := by
  rw [findInputTag, tryInputTagAt]
  rw [show "<input>".data = '<' :: "input>".data from rfl]
  rw [isPrefixOf_cons_of_head_ne _ _ (fun he => h he.symm)]
  simp

theorem findInputTag_cons_lt_of_ne (c : Char) (rest : List Char) (h : c ≠ 'i') :
    findInputTag ('<' :: c :: rest) = findInputTag (c :: rest) := by
  rw [findInputTag, tryInputTagAt]
  rw [show "<input>".data = '<' :: 'i' :: "nput>".data from rfl]
  rw [show (('<' :: 'i' :: "nput>".data).isPrefixOf ('<' :: c :: rest)) =
      (('i' :: "nput>".data).isPrefixOf (c :: rest)) from by simp [List.isPrefixOf]]
  rw [isPrefixOf_cons_of_head_ne _ _ (fun he => h he.symm)]
  simp

theorem findInputTag_word_skip (l : List Char) (s : List Char)
    (hl : ∀ c ∈ l, isWordChar c = true) :
    findInputTag (l ++ s) = findInputTag s := by
  induction l with
  | nil => simp
  | cons a t ih =>
      have ha := (isWordChar_ne_of a (hl a (by simp))).1
      rw [List.cons_append, findInputTag_cons_of_ne a _ ha]
      exact ih (fun c hc => hl c (by simp [hc]))

theorem splitUntil_append (inp rest : List Char) (h : '<' ∉ inp) :
    splitUntil "</input>".data ("</input>".data.append (rest) |> (inp ++ ·)) = some inp := by
  induction inp with
  | nil =>
      show splitUntil "</input>".data ("</input>".data ++ rest) = some []
      rw [show ("</input>".data ++ rest) = '<' :: ("/input>".data ++ rest) from by simp]
      rw [splitUntil]
      rw [show '<' :: ("/input>".data ++ rest) = "</input>".data ++ rest from by simp]
      rw [prefix_self_append]
      simp
  | cons a t ih =>
      have ha : a ≠ '<' := fun he => h (by simp [he])
      show splitUntil "</input>".data (a :: (t ++ ("</input>".data ++ rest))) = some (a :: t)
      rw [splitUntil]
      rw [show "</input>".data = '<' :: "/input>".data from rfl]
      rw [isPrefixOf_cons_of_head_ne _ _ (fun he => ha he.symm)]
      simp only [Bool.false_eq_true, if_false]
      rw [show ('<' :: "/input>".data) = "</input>".data from rfl]
      rw [show (t ++ ("</input>".data ++ rest)) =
        ("</input>".data.append rest |> (t ++ ·)) from by simp [List.append_assoc]]
      rw [ih (fun hc => h (by simp [hc]))]

theorem findInputTag_taggedForm (name inp rest : List Char)
    (hword : ∀ c ∈ name, isWordChar c = true) (hinp : '<' ∉ inp) :
    findInputTag (taggedForm name inp rest) = some inp := by
  have hshape : taggedForm name inp rest =
      '<' :: 't' :: ('o' :: 'o' :: 'l' :: '>' ::
        (name ++ ('<' :: '/' :: ('t' :: 'o' :: 'o' :: 'l' :: '>' ::
          ("<input>".data ++ (inp ++ ("</input>".data ++ rest))))))) := by
    simp [taggedForm]
  rw [hshape]
  rw [findInputTag_cons_lt_of_ne 't' _ (by decide)]
  rw [findInputTag_cons_of_ne 't' _ (by decide), findInputTag_cons_of_ne 'o' _ (by decide),
      findInputTag_cons_of_ne 'o' _ (by decide), findInputTag_cons_of_ne 'l' _ (by decide),
      findInputTag_cons_of_ne '>' _ (by decide)]
  rw [findInputTag_word_skip name _ hword]
  rw [findInputTag_cons_lt_of_ne '/' _ (by decide)]
  rw [findInputTag_cons_of_ne '/' _ (by decide), findInputTag_cons_of_ne 't' _ (by decide),
      findInputTag_cons_of_ne 'o' _ (by decide), findInputTag_cons_of_ne 'o' _ (by decide),
      findInputTag_cons_of_ne 'l' _ (by decide), findInputTag_cons_of_ne '>' _ (by decide)]
  rw [show ("<input>".data ++ (inp ++ ("</input>".data ++ rest))) =
      '<' :: ("input>".data ++ (inp ++ ("</input>".data ++ rest))) from by simp]
  rw [findInputTag, tryInputTagAt]
  rw [show ('<' :: ("input>".data ++ (inp ++ ("</input>".data ++ rest)))) =
      "<input>".data ++ (inp ++ ("</input>".data ++ rest)) from by simp]
  rw [prefix_self_append]
  simp only [if_true]
  rw [show (("<input>".data ++ (inp ++ ("</input>".data ++ rest))).drop 7) =
      inp ++ ("</input>".data ++ rest) from by simp]
  rw [show (inp ++ ("</input>".data ++ rest)) =
      ("</input>".data.append rest |> (inp ++ ·)) from by simp]
  rw [splitUntil_append inp rest hinp]

theorem findToolTag_none_of_no_lt (s : List Char) (h : '<' ∉ s) : findToolTag s = none := by
  induction s with
  | nil => rfl
  | cons c rest ih =>
      have hc : c ≠ '<' := fun he => h (by simp [he])
      have ht : tryToolTagAt (c :: rest) = none := by
        rw [tryToolTagAt]
        rw [show "<tool>".data = '<' :: "tool>".data from rfl]
        rw [isPrefixOf_cons_of_head_ne _ _ (fun he => hc he.symm)]
        simp
      rw [findToolTag, ht]
      exact ih (fun hm => h (by simp [hm]))

theorem scanClose_append (l s : List Char) (hs : tryCloseAt s = true) :
    scanClose (l ++ s) = true := by
  induction l with
  | nil =>
      rw [List.nil_append]
      cases s with
      | nil => simp [tryCloseAt] at hs
      | cons c r =>
          rw [scanClose, hs]
          simp
  | cons c t ih => rw [List.cons_append, scanClose, ih]; simp

theorem not_fence_at_front (l tail : List Char) (hb : '`' ∉ l)
    (hnw : ∃ c ∈ l, isJsWs c = false) :
    "```".data.isPrefixOf ((l ++ tail).dropWhile isJsWs) = false := by
  induction l with
  | nil => simp at hnw
  | cons c t ih =>
      by_cases hw : isJsWs c = true
      · have ht : ∃ x ∈ t, isJsWs x = false := by
          obtain ⟨x, hx, hxf⟩ := hnw
          rcases List.mem_cons.mp hx with hxc | hxt
          · rw [hxc] at hxf; rw [hxf] at hw; cases hw
          · exact ⟨x, hxt, hxf⟩
        rw [List.cons_append, List.dropWhile_cons, if_pos hw]
        exact ih (fun hm => hb (by simp [hm])) ht
      · have hc : c ≠ '`' := fun he => hb (by simp [he])
        rw [List.cons_append, List.dropWhile_cons, if_neg hw]
        rw [show "```".data = '`' :: "``".data from rfl]
        exact isPrefixOf_cons_of_head_ne _ _ (fun he => hc he.symm)

theorem scanWsClose_append (body tail : List Char) (hb : '`' ∉ body)
    (hlast : ∀ c, body.getLast? = some c → isJsWs c = false)
    (ht : "```".data.isPrefixOf (tail.dropWhile isJsWs) = true) :
    scanWsClose (body ++ tail) = some body := by
  induction body with
  | nil =>
      rw [List.nil_append]
      cases htl : tail with
      | nil =>
          rw [htl, List.dropWhile_nil] at ht
          rw [show "```".data = '`' :: '`' :: '`' :: [] from rfl] at ht
          simp [List.isPrefixOf] at ht
      | cons c r =>
          rw [htl] at ht
          rw [scanWsClose, if_pos ht]
  | cons c t ih =>
      have hnw : ∃ x ∈ c :: t, isJsWs x = false := by
        have hl := List.getLast?_eq_getLast (c :: t) (by simp)
        exact ⟨(c :: t).getLast (by simp), List.getLast_mem _,
          hlast _ hl⟩
      have hfalse := not_fence_at_front (c :: t) tail hb hnw
      rw [List.cons_append, scanWsClose]
      rw [show ((c :: (t ++ tail)).dropWhile isJsWs) = ((c :: t ++ tail).dropWhile isJsWs)
        from by simp]
      rw [hfalse]
      simp only [Bool.false_eq_true, if_false]
      have iht : scanWsClose (t ++ tail) = some t := by
        apply ih (fun hm => hb (by simp [hm]))
        intro x hx
        apply hlast
        cases t with
        | nil => simp at hx
        | cons a s => rw [List.getLast?_cons_cons]; exact hx
      rw [iht]

/-- The canonical fenced tool-call block body:
`\x7b"tool": "NM", "input": INP\x7d`. -/
def fencedBody (nm inpJson : List Char) : List Char :=
  '\x7b' :: ("\"tool\":".data ++ (' ' :: ('"' :: (nm
    ++ ('"' :: (", \"input\": ".data ++ (inpJson ++ ['\x7d'])))))))

/-- The canonical fenced tool-call response: the body wrapped in a
`\x60\x60\x60json` fence. -/
def fencedForm (nm inpJson : List Char) : List Char :=
  "```json".data ++ ('\n' :: (fencedBody nm inpJson ++ ('\n' :: "```".data)))

theorem backtick_not_mem_fencedBody (nm inpJson : List Char)
    (hword : ∀ c ∈ nm, isWordChar c = true) (hinp : '`' ∉ inpJson) :
    '`' ∉ fencedBody nm inpJson := by
  intro hm
  rw [fencedBody,
      show "\"tool\":".data = ['"', 't', 'o', 'o', 'l', '"', ':'] from rfl,
      show ", \"input\": ".data = [',', ' ', '"', 'i', 'n', 'p', 'u', 't', '"', ':', ' ']
        from rfl] at hm
  simp +decide [List.mem_cons, List.mem_append] at hm
  rcases hm with h | h
  · exact (isWordChar_ne_of _ (hword _ h)).2.2 rfl
  · exact hinp h

theorem lt_not_mem_fencedForm (nm inpJson : List Char)
    (hword : ∀ c ∈ nm, isWordChar c = true) (hinp : '<' ∉ inpJson) :
    '<' ∉ fencedForm nm inpJson := by
  intro hm
  rw [fencedForm, fencedBody,
      show "```json".data = ['`', '`', '`', 'j', 's', 'o', 'n'] from rfl,
      show "```".data = ['`', '`', '`'] from rfl,
      show "\"tool\":".data = ['"', 't', 'o', 'o', 'l', '"', ':'] from rfl,
      show ", \"input\": ".data = [',', ' ', '"', 'i', 'n', 'p', 'u', 't', '"', ':', ' ']
        from rfl] at hm
  simp +decide [List.mem_cons, List.mem_append] at hm
  rcases hm with h | h
  · exact (isWordChar_ne_of _ (hword _ h)).1 rfl
  · exact hinp h

theorem scanToolKey_fencedTail (nm tail3 : List Char) (hne : nm ≠ [])
    (hword : ∀ c ∈ nm, isWordChar c = true) :
    scanToolKey ("\"tool\":".data ++ (' ' :: ('"' :: (nm ++ ('"' :: tail3))))) =
      some (nm, tail3) := by
  have hsh : ("\"tool\":".data ++ (' ' :: ('"' :: (nm ++ ('"' :: tail3))))) =
      '"' :: ('t' :: ('o' :: ('o' :: ('l' :: ('"' :: (':' ::
        (' ' :: ('"' :: (nm ++ ('"' :: tail3)))))))))) := rfl
  have htry : tryToolKeyAt ('"' :: ('t' :: ('o' :: ('o' :: ('l' :: ('"' :: (':' ::
      (' ' :: ('"' :: (nm ++ ('"' :: tail3))))))))))) = some (nm, tail3) := by
    simp only [tryToolKeyAt]
    rw [← hsh]
    rw [prefix_self_append]
    simp only [if_true]
    rw [show (("\"tool\":".data ++ (' ' :: ('"' :: (nm ++ ('"' :: tail3))))).drop 7) =
      ' ' :: ('"' :: (nm ++ ('"' :: tail3))) from by simp [hsh]]
    rw [show ((' ' :: ('"' :: (nm ++ ('"' :: tail3)))).dropWhile isJsWs) =
      '"' :: (nm ++ ('"' :: tail3)) from by
        rw [List.dropWhile_cons, if_pos (by decide), List.dropWhile_cons,
          if_neg (by decide)]]
    rw [if_pos (show (('"' :: (nm ++ ('"' :: tail3))).head? = some '"') from rfl)]
    rw [show ('"' :: (nm ++ ('"' :: tail3))).tail = nm ++ ('"' :: tail3) from rfl]
    rw [takeWhile_append_of_all nm '"' _ hword (by decide),
        dropWhile_append_of_all nm '"' _ hword (by decide)]
    simp [hne]
  rw [hsh, scanToolKey]
  simp only [htry]

theorem tryFencedAt_fencedForm (nm inpJson : List Char) (hne : nm ≠ [])
    (hword : ∀ c ∈ nm, isWordChar c = true) :
    tryFencedAt (fencedForm nm inpJson) = true := by
  simp only [tryFencedAt, fencedForm]
  rw [prefix_self_append]
  simp only [if_true]
  rw [show (("```json".data ++ ('\n' :: (fencedBody nm inpJson ++ ('\n' :: "```".data)))).drop 7) =
      '\n' :: (fencedBody nm inpJson ++ ('\n' :: "```".data)) from by
    rw [show "```json".data = ['`', '`', '`', 'j', 's', 'o', 'n'] from rfl]
    rfl]
  rw [show (('\n' :: (fencedBody nm inpJson ++ ('\n' :: "```".data))).dropWhile isJsWs) =
    '\x7b' :: (("\"tool\":".data ++ (' ' :: ('"' :: (nm
      ++ ('"' :: (", \"input\": ".data ++ (inpJson ++ ['\x7d'])))))))
      ++ ('\n' :: "```".data))
    from by
      rw [List.dropWhile_cons, if_pos (by decide), fencedBody, List.cons_append,
        List.dropWhile_cons, if_neg (by decide)]]
  rw [if_pos (show (('\x7b' :: (("\"tool\":".data ++ (' ' :: ('"' :: (nm
      ++ ('"' :: (", \"input\": ".data ++ (inpJson ++ ['\x7d'])))))))
      ++ ('\n' :: "```".data))).head? = some '\x7b') from rfl)]
  rw [show ('\x7b' :: (("\"tool\":".data ++ (' ' :: ('"' :: (nm
      ++ ('"' :: (", \"input\": ".data ++ (inpJson ++ ['\x7d'])))))))
      ++ ('\n' :: "```".data))).tail =
    ("\"tool\":".data ++ (' ' :: ('"' :: (nm
      ++ ('"' :: (", \"input\": ".data ++ (inpJson ++ ['\x7d'])))))))
      ++ ('\n' :: "```".data) from rfl]
  rw [show (("\"tool\":".data ++ (' ' :: ('"' :: (nm
      ++ ('"' :: (", \"input\": ".data ++ (inpJson ++ ['\x7d'])))))))
      ++ ('\n' :: "```".data)) =
    "\"tool\":".data ++ (' ' :: ('"' :: (nm
      ++ ('"' :: (", \"input\": ".data ++ (inpJson ++ ('\x7d' :: ('\n' :: "```".data))))))))
    from by simp]
  rw [scanToolKey_fencedTail nm _ hne hword]
  rw [show (", \"input\": ".data ++ (inpJson ++ ('\x7d' :: ('\n' :: "```".data)))) =
    (", \"input\": ".data ++ inpJson) ++ ('\x7d' :: ('\n' :: "```".data)) from by simp]
  exact scanClose_append _ _ (by decide)

theorem hasFencedToolBlock_fencedForm (nm inpJson : List Char) (hne : nm ≠ [])
    (hword : ∀ c ∈ nm, isWordChar c = true) :
    hasFencedToolBlock (fencedForm nm inpJson) = true := by
  have h := tryFencedAt_fencedForm nm inpJson hne hword
  rw [show fencedForm nm inpJson =
    '`' :: ('`' :: ('`' :: ('j' :: ('s' :: ('o' :: ('n' ::
      ('\n' :: (fencedBody nm inpJson ++ ('\n' :: "```".data))))))))) from rfl] at h ⊢
  rw [hasFencedToolBlock, h]
  simp

theorem fencedJsonCapture_fencedForm (nm inpJson : List Char)
    (hword : ∀ c ∈ nm, isWordChar c = true) (hinp : '`' ∉ inpJson) :
    fencedJsonCapture (fencedForm nm inpJson) = some (fencedBody nm inpJson) := by
  rw [fencedJsonCapture]
  have hff : findFenceJson (fencedForm nm inpJson) =
      some ('\n' :: (fencedBody nm inpJson ++ ('\n' :: "```".data))) := by
    rw [show fencedForm nm inpJson =
      '`' :: ('`' :: ('`' :: ('j' :: ('s' :: ('o' :: ('n' ::
        ('\n' :: (fencedBody nm inpJson ++ ('\n' :: "```".data))))))))) from rfl]
    rw [findFenceJson]
    rw [show ('`' :: ('`' :: ('`' :: ('j' :: ('s' :: ('o' :: ('n' ::
        ('\n' :: (fencedBody nm inpJson ++ ('\n' :: "```".data)))))))))) =
      "```json".data ++ ('\n' :: (fencedBody nm inpJson ++ ('\n' :: "```".data))) from rfl]
    rw [prefix_self_append]
    simp only [if_true]
    rw [show (("```json".data ++ ('\n' :: (fencedBody nm inpJson ++ ('\n' :: "```".data)))).drop 7) =
      '\n' :: (fencedBody nm inpJson ++ ('\n' :: "```".data)) from rfl]
  simp only [hff]
  rw [show (('\n' :: (fencedBody nm inpJson ++ ('\n' :: "```".data))).dropWhile isJsWs) =
      ((fencedBody nm inpJson ++ ('\n' :: "```".data)).dropWhile isJsWs) from by
        rw [List.dropWhile_cons, if_pos (by decide)]]
  rw [show ((fencedBody nm inpJson ++ ('\n' :: "```".data)).dropWhile isJsWs) =
      fencedBody nm inpJson ++ ('\n' :: "```".data) from by
        rw [fencedBody, List.cons_append, List.dropWhile_cons, if_neg (by decide)]]
  apply scanWsClose_append
  · exact backtick_not_mem_fencedBody nm inpJson hword hinp
  · intro c hc
    rw [show fencedBody nm inpJson =
      ('\x7b' :: ("\"tool\":".data ++ (' ' :: ('"' :: (nm
        ++ ('"' :: (", \"input\": ".data ++ inpJson))))))) ++ ['\x7d'] from by
          rw [fencedBody]; simp] at hc
    rw [List.getLast?_concat] at hc
    cases hc
    decide
  · rw [List.dropWhile_cons, if_pos (by decide)]
    exact prefix_self_append _ _

/-- Claim C3: the tool-call parser's protocol.
1. A response starting with the tagged form `<tool>NAME</tool><input>INP</input>`
   (word-character name, no `<` inside the input text) parses to that name —
   the tagged form is checked before the fenced form, whatever follows it —
   with the input `JSON.parse`d when it parses, `\x7b\x7d` when the capture is
   empty, and `\x7braw: <literal text>\x7d` when `JSON.parse` fails (malformed
   JSON is tolerated, not a parse failure).
2. A response matching neither accepted form yields no tool call: the
   response is the final answer.
3. A fenced ```` ```json ```` block whose body is `\x7b"tool": "NAME",
   "input": INP\x7d` parses to `\x7bname, input\x7d` as read off the
   `JSON.parse` of the block body. -/
theorem parseToolCall_protocol (jp : String → Option JsonVal) :
    (∀ name inp rest, name ≠ [] → (∀ c ∈ name, isWordChar c = true) → '<' ∉ inp →
      parseToolCall jp (String.mk (taggedForm name inp rest)) =
        some ⟨.str (String.mk name),
          if inp.isEmpty then .obj []
          else
            match jp (String.mk inp) with
            | some v => v
            | none => .obj [("raw", .str (String.mk inp))]⟩)
    ∧ (∀ content, findToolTag content.data = none → hasFencedToolBlock content.data = false →
        parseToolCall jp content = none)
    ∧ (∀ nm inpJson parsed, nm ≠ [] → (∀ c ∈ nm, isWordChar c = true) →
        '`' ∉ inpJson → '<' ∉ inpJson →
        jp (String.mk (fencedBody nm inpJson)) = some parsed →
        parseToolCall jp (String.mk (fencedForm nm inpJson)) =
          some ⟨jsonField parsed "tool",
            if jsTruthy (jsonField parsed "input") then jsonField parsed "input"
            else .obj []⟩) := by
  refine ⟨fun name inp rest hne hword hinp => ?_, fun content h1 h2 => ?_,
          fun nm inpJson parsed hne hword hbt hlt hjp => ?_⟩
  · simp only [parseToolCall]
    simp only [findToolTag_taggedForm name inp rest hne hword,
               findInputTag_taggedForm name inp rest hword hinp]
  · simp [parseToolCall, h1, h2]
  · simp only [parseToolCall]
    have h0 : findToolTag (fencedForm nm inpJson) = none :=
      findToolTag_none_of_no_lt _ (lt_not_mem_fencedForm nm inpJson hword hlt)
    simp only [h0, hasFencedToolBlock_fencedForm nm inpJson hne hword,
               fencedJsonCapture_fencedForm nm inpJson hword hbt, if_true, hjp]

/-- Stand-in for the external `JSON.parse`, defined on the inputs the
parser-protocol witness exercises. -/
def jpC3 : String → Option JsonVal :=
  fun s =>
    if s = "\x7b\"a\":1,\"b\":2\x7d" then some (.obj [("a", .num 1), ("b", .num 2)])
    else if s = "\x7b\"tool\": \"add\", \"input\": \x7b\"a\":1\x7d\x7d" then
      some (.obj [("tool", .str "add"), ("input", .obj [("a", .num 1)])])
    else none

theorem parseToolCall_protocol_witness :
    parseToolCall jpC3 (String.mk (taggedForm "add".data "\x7b\"a\":1,\"b\":2\x7d".data [])) =
      some ⟨.str "add", .obj [("a", .num 1), ("b", .num 2)]⟩
    ∧ parseToolCall jpC3 (String.mk (taggedForm "add".data "not json".data [])) =
      some ⟨.str "add", .obj [("raw", .str "not json")]⟩
    ∧ parseToolCall jpC3 "I could not find a tool to use." = none
    ∧ parseToolCall jpC3 (String.mk (fencedForm "add".data "\x7b\"a\":1\x7d".data)) =
      some ⟨.str "add", .obj [("a", .num 1)]⟩ :=
  ⟨(parseToolCall_protocol jpC3).1 "add".data "\x7b\"a\":1,\"b\":2\x7d".data []
      (by decide) (by decide) (by decide),
   (parseToolCall_protocol jpC3).1 "add".data "not json".data []
      (by decide) (by decide) (by decide),
   (parseToolCall_protocol jpC3).2.1 "I could not find a tool to use." (by decide) (by decide),
   (parseToolCall_protocol jpC3).2.2 "add".data "\x7b\"a\":1\x7d".data
      (.obj [("tool", .str "add"), ("input", .obj [("a", .num 1)])])
      (by decide) (by decide) (by decide) (by decide) rfl⟩

end Monan
